import Mathlib

/-!
Verification of the ERSEM golden-reference validation core.

The development shallowly embeds the three scripts of the repository over
exact rational arithmetic:
* the polynomial CTMI temperature-response kernel and the Michaelis-Menten
  saturation function (`tests/primary_producer/test_ctmi_polynomial.py`),
* the PyCO2SYS reference-case bridge and its CSV row formatting
  (`tests/carbonate_engine/generate_reference.py`),
* the field-extraction pipeline (`github-actions/regen_expected_results.py`).

Machine floats are modelled as rationals; fallible Python code (KeyError,
ZeroDivisionError, RuntimeError) is modelled with `Option`.
-/

/-- Precompute polynomial CTMI coefficients, as in `ctmi_coefficients`
(which mirrors the `initialize` subroutine of `primary_producer.F90`). -/
def ctmi_coefficients (Tmin Topt Tmax : ℚ) : ℚ × ℚ :=
  let a := Topt - Tmin
  let b := Topt - Tmax
  let ab2 := (a * b) ^ 2
  (-(a + b) / ab2, (a * b + (a + b) * Topt) / ab2)

/-- The unclamped cubic `et = (T-Tmin)*(T-Tmax)*(ctmi_a*T + ctmi_b)`
computed inside `ctmi_eval` before clamping. -/
def ctmi_cubic (T Tmin Topt Tmax : ℚ) : ℚ :=
  let c := ctmi_coefficients Tmin Topt Tmax
  (T - Tmin) * (T - Tmax) * (c.1 * T + c.2)

/-- Evaluate the polynomial CTMI, as in `ctmi_eval`: out-of-range
temperatures return 0, otherwise the cubic is clamped to [0, 1]. -/
def ctmi_eval (T Tmin Topt Tmax : ℚ) : ℚ :=
  if T ≤ Tmin ∨ Tmax ≤ T then 0
  else max 0 (min 1 (ctmi_cubic T Tmin Topt Tmax))

/-- `ctmi_coefficients` with Python's division-by-zero failure made
explicit: the coefficient computation divides by `((Topt-Tmin)*(Topt-Tmax))^2`
and raises ZeroDivisionError when that denominator is zero. -/
def ctmi_coefficients_checked (Tmin Topt Tmax : ℚ) : Option (ℚ × ℚ) :=
  let a := Topt - Tmin
  let b := Topt - Tmax
  let ab2 := (a * b) ^ 2
  if ab2 = 0 then none
  else some (-(a + b) / ab2, (a * b + (a + b) * Topt) / ab2)

/-- `ctmi_eval` with the division failure made explicit.  The range test
`T <= Tmin or T >= Tmax` is evaluated first, exactly as in the source, so
the coefficient computation (and its division) is reached only for
in-range temperatures. -/
def ctmi_eval_checked (T Tmin Topt Tmax : ℚ) : Option ℚ :=
  if T ≤ Tmin ∨ Tmax ≤ T then some 0
  else (ctmi_coefficients_checked Tmin Topt Tmax).map (fun c =>
    max 0 (min 1 ((T - Tmin) * (T - Tmax) * (c.1 * T + c.2))))

/-- Michaelis-Menten saturation `V = Vmax * S / (Ks + S)`, as in
`michaelis_menten`. -/
def michaelis_menten (S Vmax Ks : ℚ) : ℚ := Vmax * S / (Ks + S)

/-! ### Equilibrium-oracle bridge (`generate_reference.py`) -/

/-- One input test vector of `TEST_CASES`: temperature (degC), salinity
(PSU), DIC and TA in mol/kg. -/
structure CarbonateCase where
  T : ℚ
  S : ℚ
  DIC : ℚ
  TA : ℚ
deriving DecidableEq

/-- One generated reference row: the inputs plus the derived pH (total
scale) and pCO2 (atm). -/
structure CaseResult where
  T : ℚ
  S : ℚ
  DIC : ℚ
  TA : ℚ
  pH : ℚ
  pCO2 : ℚ
deriving DecidableEq

/-- Conversion applied to DIC and TA before the PyCO2SYS call:
`DIC_umolkg = DIC_molkg * 1e6`. -/
def molkgToUmolkg (x : ℚ) : ℚ := x * 1000000

/-- Conversion applied to the returned pCO2 before persisting:
`pCO2_atm = pCO2_uatm * 1e-6`. -/
def uatmToAtm (x : ℚ) : ℚ := x * (1 / 1000000)

/-- The fixed `TEST_CASES` table of `generate_reference.py`. -/
def TEST_CASES : List CarbonateCase :=
  [⟨25.0, 35.0, 0.002100, 0.002300⟩,
   ⟨25.0, 35.0, 0.002000, 0.002200⟩,
   ⟨25.0, 35.0, 0.002200, 0.002400⟩,
   ⟨15.0, 35.0, 0.002100, 0.002300⟩,
   ⟨15.0, 35.0, 0.002000, 0.002200⟩,
   ⟨10.0, 30.0, 0.002050, 0.002250⟩,
   ⟨20.0, 32.0, 0.002100, 0.002350⟩,
   ⟨25.0, 34.0, 0.001900, 0.002100⟩,
   ⟨18.0, 33.0, 0.002150, 0.002380⟩,
   ⟨22.0, 36.0, 0.002080, 0.002280⟩,
   ⟨5.0, 28.0, 0.002000, 0.002200⟩,
   ⟨30.0, 38.0, 0.002100, 0.002300⟩,
   ⟨20.0, 25.0, 0.001800, 0.002000⟩,
   ⟨25.0, 28.0, 0.001900, 0.002100⟩,
   ⟨15.0, 30.0, 0.002000, 0.002150⟩]

/-- The per-case body of `generate_reference_cases`.  The external
PyCO2SYS solver is a collaborator, modelled as a function taking
(TA in umol/kg, DIC in umol/kg, temperature, salinity) — the order of
`par1`/`par2` in the call — and returning (pH_total, pCO2 in uatm).
DIC and TA are converted to umol/kg before the call, and the returned
pCO2 is converted from uatm to atm before being stored. -/
def generate_reference_case (solver : ℚ → ℚ → ℚ → ℚ → ℚ × ℚ)
    (c : CarbonateCase) : CaseResult :=
  let DIC_umolkg := molkgToUmolkg c.DIC
  let TA_umolkg := molkgToUmolkg c.TA
  let result := solver TA_umolkg DIC_umolkg c.T c.S
  { T := c.T, S := c.S, DIC := c.DIC, TA := c.TA,
    pH := result.1, pCO2 := uatmToAtm result.2 }

/-- The loop of `generate_reference_cases` over the fixed test vectors. -/
def generate_reference_cases (solver : ℚ → ℚ → ℚ → ℚ → ℚ × ℚ) :
    List CaseResult :=
  TEST_CASES.map (generate_reference_case solver)

/-! ### Python number formatting over exact rationals -/

/-- Decimal digit characters of a natural number, with explicit fuel (the
fuel is always sufficient, see `natChars`). -/
def natCharsAux : Nat → Nat → List Char
  | 0, _ => []
  | fuel+1, n =>
    if n < 10 then [Nat.digitChar n]
    else natCharsAux fuel (n / 10) ++ [Nat.digitChar (n % 10)]

/-- Decimal digit characters of a natural number. -/
def natChars (n : Nat) : List Char := natCharsAux (n + 1) n

/-- Round to the nearest integer, ties to even — the rounding used by
Python string formatting of floats (modelled over exact rationals). -/
def pyRoundInt (x : ℚ) : ℤ :=
  let f := ⌊x⌋
  let r := x - f
  if r < 1/2 then f
  else if 1/2 < r then f + 1
  else if f % 2 = 0 then f else f + 1

/-- Python fixed-point formatting `f"{x:.{prec}f}"` over exact rationals. -/
def formatFixed (prec : Nat) (x : ℚ) : String :=
  let n := pyRoundInt (x * 10 ^ prec)
  let sign := if x < 0 then "-" else ""
  let m := n.natAbs
  let ip := m / 10 ^ prec
  let fp := m % 10 ^ prec
  let fpStr := natChars fp
  sign ++ String.mk (natChars ip) ++ "." ++
    String.mk (List.replicate (prec - fpStr.length) ('0') ++ fpStr)

/-- Models Python repr of the temperature and salinity floats in the row
f-string.  Every T and S in `TEST_CASES` is an exact one-decimal value
(25.0, 35.0, ...), for which repr prints exactly the one-decimal form, so
it coincides with one-decimal fixed formatting on this data. -/
def pyFloatStr (x : ℚ) : String := formatFixed 1 x

/-- Fuel-driven decimal-exponent search: multiply/divide by 10 until the
mantissa lands in [1, 10).  Returns the accumulated exponent. -/
def sciExpAux : Nat → ℚ → ℤ → ℤ
  | 0, _, e => e
  | fuel+1, x, e =>
    if x < 1 then sciExpAux fuel (x * 10) (e - 1)
    else if 10 ≤ x then sciExpAux fuel (x / 10) (e + 1)
    else e

/-- The decimal exponent e with 10^e ≤ x < 10^(e+1), for x > 0. -/
def sciExp (x : ℚ) : ℤ := sciExpAux (x.den + x.num.natAbs + 1) x 0

/-- Scaled mantissa and exponent for scientific formatting with `prec`
digits after the point: the mantissa in [1,10) is scaled by 10^prec and
rounded; a round up to 10^(prec+1) carries into the exponent. -/
def sciScaledExp (prec : Nat) (x : ℚ) : ℤ × ℤ :=
  let e := sciExp x
  let scaled := pyRoundInt (x / (10:ℚ) ^ e * (10:ℚ) ^ prec)
  if scaled = 10 ^ (prec + 1) then (10 ^ prec, e + 1) else (scaled, e)

/-- Exponent field of Python scientific formatting: sign plus at least two
digits. -/
def expStr (e : ℤ) : String :=
  let ds := natChars e.natAbs
  (if e < 0 then "-" else "+") ++
    String.mk (List.replicate (2 - ds.length) ('0') ++ ds)

/-- Python scientific formatting `f"{x:.{prec}e}"` over exact rationals:
one digit, a point, `prec` digits, then `e` and the signed exponent. -/
def formatSciE (prec : Nat) (x : ℚ) : String :=
  if x = 0 then "0." ++ String.mk (List.replicate prec ('0')) ++ "e+00"
  else
    let se := sciScaledExp prec |x|
    let ds := natChars se.1.natAbs
    (if x < 0 then "-" else "") ++ String.mk (ds.take 1) ++ "." ++
      String.mk (ds.drop 1) ++ "e" ++ expStr se.2

/-- One data row of the reference-case table, from the write f-string:
T and S by repr, DIC and TA to 6 decimal places, pH to 3 decimal places,
pCO2 in scientific notation with precision 3, then a line break. -/
def mkRow (r : CaseResult) : String :=
  pyFloatStr r.T ++ "," ++ pyFloatStr r.S ++ "," ++ formatFixed 6 r.DIC ++ "," ++
    formatFixed 6 r.TA ++ "," ++ formatFixed 3 r.pH ++ "," ++
    formatSciE 3 r.pCO2 ++ "\n"

/-- The five comment lines written before the data rows. -/
def headerLines : List String :=
  ["# Reference test cases for carbonate_engine",
   "# Generated using PyCO2SYS with: K1K2=10 (Millero 2010), KSO4=1 (Dickson 1990), KF=2 (Perez & Fraga 1987)",
   "# Total pH scale, surface pressure (0 bar gauge)",
   "# Columns: T(degC), S(PSU), DIC(mol/kg), TA(mol/kg), pH_total, pCO2(atm)",
   "# Note: pCO2 values are in atm (not uatm)"]

/-- Number of comma characters in a string. -/
def countCommas (s : String) : Nat := s.data.count (',')

/-! ### Field-extraction pipeline (`regen_expected_results.py`) -/

/-- The two supported model-run kinds. -/
inductive ModelRun where
  | gotm
  | fabm0d
deriving DecidableEq

/-- Squeezed payload of a netCDF variable, i.e. `variable[:].squeeze()`:
effectively one-dimensional (a time series) or two-dimensional
(time by level). -/
inductive NCData where
  | d1 : List ℚ → NCData
  | d2 : List (List ℚ) → NCData
deriving DecidableEq

/-- A netCDF variable: its declared rank (`ndim`) and its squeezed
payload. -/
structure NCVar where
  ndim : Nat
  squeezed : NCData
deriving DecidableEq

/-- A value stored in the extracted result mapping. -/
inductive NCValue where
  | dates : List String → NCValue
  | arr : NCData → NCValue
  | scalar : ℚ → NCValue
deriving DecidableEq

/-- The dataset handle: named variables, plus the rendered calendar
timestamps of the time axis (`nc.num2date(time[:], units, calendar)` each
rendered with `str`); `none` models a missing/defective time variable. -/
structure Dataset where
  vars : List (String × NCVar)
  timeDates : Option (List String)
deriving DecidableEq

/-- `data.variables[v]`, with KeyError as `none`. -/
def lookupVar (d : Dataset) (v : String) : Option NCVar := d.vars.lookup v

/-- `str(d).split(" ")[0]`: truncate a rendered timestamp to its date
component. -/
def pySplitFirst (s : String) : String := (s.splitOn " ").headD s

/-- The fixed reference depth (`depth = 0.0` in the source). -/
def depthBase : ℚ := 0

/-- `numpy.interp` on a list of (x, f) sample pairs with strictly
increasing x: clamp to the first/last sample outside the range, linear
interpolation inside. -/
def interp (x : ℚ) : List (ℚ × ℚ) → ℚ
  | [] => 0
  | [p] => p.2
  | p1 :: p2 :: rest =>
    if x ≤ p1.1 then p1.2
    else if x ≤ p2.1 then p1.2 + (p2.2 - p1.2) * (x - p1.1) / (p2.1 - p1.1)
    else interp x (p2 :: rest)

/-- The depth-interpolation loop of the gotm "expected" branch: for each
timestep the query depth is `depthBase + zi[i, -1]` and `field[i, :]` is
interpolated against `z[i, :]`.  Failures (missing interface row, empty
depth row, mismatched lengths — IndexError/ValueError in the source)
yield `none`. -/
def gotmReduceE : List (List ℚ) → List (List ℚ) → List (List ℚ) → Option (List ℚ)
  | _, _, [] => some []
  | ziRow :: ziRest, zRow :: zRest, fRow :: fRest =>
    if ziRow = [] ∨ zRow = [] ∨ zRow.length ≠ fRow.length then none
    else (gotmReduceE ziRest zRest fRest).map
      (fun rest => interp (depthBase + ziRow.getLastD 0) (zRow.zip fRow) :: rest)
  | _, _, _ :: _ => none

/-- One iteration body of the extraction loop (the `try` block of
`regen_expected_results.py`), for field `v` given the results accumulated
so far.  Any exception is `none`.  Note the faithful modelling of the
rank-4 gotm branch: the source reads `expected_results[v][-1, :]`, i.e. it
looks `v` up in the accumulated results dictionary, not in the dataset. -/
def extractField (mr : ModelRun) (key : String) (d : Dataset)
    (results : List (String × NCValue)) (v : String) : Option NCValue :=
  if v = "dates" then
    d.timeDates.map (fun ds => NCValue.dates (ds.map pySplitFirst))
  else if key = "expected" ∧ mr = ModelRun.gotm then
    match lookupVar d v, lookupVar d "zi", lookupVar d "z" with
    | some var, some zi, some z =>
      match var.squeezed, zi.squeezed, z.squeezed with
      | NCData.d2 rows, NCData.d2 ziRows, NCData.d2 zRows =>
        (gotmReduceE ziRows zRows rows).map (fun l => NCValue.arr (NCData.d1 l))
      | _, _, _ => none
    | _, _, _ => none
  else
    match lookupVar d v with
    | none => none
    | some var =>
      if var.ndim = 4 then
        if mr = ModelRun.fabm0d then some (NCValue.arr var.squeezed)
        else
          match results.lookup v with
          | some (NCValue.arr (NCData.d2 rows)) =>
            rows.getLast?.map (fun row => NCValue.arr (NCData.d1 row))
          | _ => none
      else if var.ndim = 3 then
        if mr = ModelRun.fabm0d then some (NCValue.arr var.squeezed)
        else
          match var.squeezed with
          | NCData.d1 l => l.getLast?.map NCValue.scalar
          | _ => none
      else none

/-- The extraction loop `for v in items: try ... except: continue`,
accumulating the insertion-ordered result mapping (each field name occurs
at most once in `items`, so dictionary insertion is an append). -/
def extractLoop (mr : ModelRun) (key : String) (d : Dataset) :
    List String → List (String × NCValue) → List (String × NCValue)
  | [], acc => acc
  | v :: vs, acc =>
    match extractField mr key d acc v with
    | some val => extractLoop mr key d vs (acc ++ [(v, val)])
    | none => extractLoop mr key d vs acc

/-- Extraction of a field list where each field only sees an empty results
accumulator (used to state per-field independence). -/
def pureExtract (mr : ModelRun) (key : String) (d : Dataset) :
    List String → List (String × NCValue)
  | [] => []
  | v :: vs =>
    match extractField mr key d [] v with
    | some val => (v, val) :: pureExtract mr key d vs
    | none => pureExtract mr key d vs

/-- Modelled from the spec: for the gotm state-variable kind, a rank-4
field "is reduced by taking only the final timestep's slice" of the
variable's values.  This is the intended behaviour the buggy
`expected_results[v][-1, :]` line fails to implement. -/
def specGotmStateRank4 (var : NCVar) : Option NCValue :=
  match var.squeezed with
  | NCData.d2 rows => rows.getLast?.map (fun row => NCValue.arr (NCData.d1 row))
  | _ => none

/-! ### Helper algebra for the CTMI kernel -/

theorem ctmi_denom_pos {Tmin Topt Tmax : ℚ} (h1 : Tmin < Topt) (h2 : Topt < Tmax) :
    0 < ((Topt - Tmin) * (Topt - Tmax)) ^ 2 := by
  have hne : (Topt - Tmin) * (Topt - Tmax) ≠ 0 := by
    have hp : 0 < Topt - Tmin := by linarith
    have hq : Topt - Tmax < 0 := by linarith
    exact ne_of_lt (mul_neg_of_pos_of_neg hp hq)
  exact pow_two_pos_of_ne_zero hne

theorem ctmi_cubic_eq (Tmin Topt Tmax T : ℚ) :
    ctmi_cubic T Tmin Topt Tmax =
      (T - Tmin) * (T - Tmax) *
        ((Topt - Tmin) * (Topt - Tmax) -
          ((Topt - Tmin) + (Topt - Tmax)) * (T - Topt)) /
        ((Topt - Tmin) * (Topt - Tmax)) ^ 2 := by
  show (T - Tmin) * (T - Tmax) *
      (-((Topt - Tmin) + (Topt - Tmax)) / ((Topt - Tmin) * (Topt - Tmax)) ^ 2 * T +
        ((Topt - Tmin) * (Topt - Tmax) +
          ((Topt - Tmin) + (Topt - Tmax)) * Topt) /
          ((Topt - Tmin) * (Topt - Tmax)) ^ 2) = _
  rw [div_mul_eq_mul_div, div_add_div_same, mul_div_assoc]
  congr 1
  ring

theorem ctmi_eval_at_topt {Tmin Topt Tmax : ℚ}
    (h1 : Tmin < Topt) (h2 : Topt < Tmax) :
    ctmi_eval Topt Tmin Topt Tmax = 1 := by
  have hin : ¬(Topt ≤ Tmin ∨ Tmax ≤ Topt) := by
    push_neg
    exact ⟨h1, h2⟩
  have hcube : ctmi_cubic Topt Tmin Topt Tmax = 1 := by
    rw [ctmi_cubic_eq]
    have hd : ((Topt - Tmin) * (Topt - Tmax)) ^ 2 ≠ 0 :=
      ne_of_gt (ctmi_denom_pos h1 h2)
    rw [div_eq_one_iff_eq hd]
    ring
  rw [ctmi_eval, if_neg hin, hcube]
  norm_num

/-- Claim C1: for every triple with Tmin < Topt < Tmax, `ctmi_eval` returns
exactly 1 at T = Topt and exactly 0 for every T with T ≤ Tmin or T ≥ Tmax
(in particular at Tmin and Tmax themselves). -/
theorem ctmi_eval_peak_and_boundary {Tmin Topt Tmax : ℚ}
    (h1 : Tmin < Topt) (h2 : Topt < Tmax) :
    ctmi_eval Topt Tmin Topt Tmax = 1 ∧
    (∀ T : ℚ, T ≤ Tmin ∨ Tmax ≤ T → ctmi_eval T Tmin Topt Tmax = 0) := by
  refine ⟨ctmi_eval_at_topt h1 h2, ?_⟩
  intro T hT
  rw [ctmi_eval, if_pos hT]

/-- Witness for C1 on the documented P1 diatom parameters (2, 15, 30). -/
theorem ctmi_eval_peak_and_boundary_case :
    ctmi_eval 15 2 15 30 = 1 ∧ ctmi_eval 2 2 15 30 = 0 ∧
      ctmi_eval 30 2 15 30 = 0 ∧ ctmi_eval 35 2 15 30 = 0 := by
  have h := @ctmi_eval_peak_and_boundary 2 15 30 (by norm_num) (by norm_num)
  exact ⟨h.1, h.2 2 (Or.inl le_rfl), h.2 30 (Or.inr le_rfl),
    h.2 35 (Or.inr (by norm_num))⟩

/-- Claim C8: `michaelis_menten` computes Vmax*S/(Ks+S); at S = Ks it gives
Vmax/2, at S = 0 it gives 0, and for Ks > 0, S ≥ 0 the denominator Ks + S
is strictly positive, so no division by zero occurs. -/
theorem michaelis_menten_props (S Vmax Ks : ℚ) (hKs : 0 < Ks) (hS : 0 ≤ S) :
    michaelis_menten S Vmax Ks = Vmax * S / (Ks + S) ∧
    michaelis_menten Ks Vmax Ks = Vmax / 2 ∧
    michaelis_menten 0 Vmax Ks = 0 ∧
    0 < Ks + S := by
  refine ⟨rfl, ?_, ?_, by linarith⟩
  · have h2 : Ks ≠ 0 := ne_of_gt hKs
    rw [michaelis_menten]
    field_simp
    ring
  · rw [michaelis_menten]
    simp

/-- Witness for C8 at S = 3, Vmax = 5, Ks = 3 and the half-saturation
point. -/
theorem michaelis_menten_props_case :
    michaelis_menten 3 5 3 = 5 / 2 ∧ michaelis_menten 0 5 3 = 0 ∧
      (0 : ℚ) < 3 + 3 := by
  have h := michaelis_menten_props 3 5 3 (by norm_num) (by norm_num)
  exact ⟨h.2.1, h.2.2.1, h.2.2.2⟩

/-- Claim C10: the range test is evaluated before any coefficient
arithmetic, so every out-of-range temperature yields 0 without performing
a division — even for degenerate triples with Topt = Tmin or Topt = Tmax,
where the coefficient denominator is zero and the coefficient computation
itself would raise a division-by-zero error. -/
theorem ctmi_eval_guard_before_division (T Tmin Topt Tmax : ℚ)
    (hout : T ≤ Tmin ∨ Tmax ≤ T) :
    ctmi_eval_checked T Tmin Topt Tmax = some 0 ∧
    (Topt = Tmin ∨ Topt = Tmax →
      ctmi_coefficients_checked Tmin Topt Tmax = none) := by
  constructor
  · rw [ctmi_eval_checked, if_pos hout]
  · intro hdeg
    have hz : ((Topt - Tmin) * (Topt - Tmax)) ^ 2 = 0 := by
      rcases hdeg with h | h <;> rw [h] <;> ring
    rw [ctmi_coefficients_checked]
    simp [hz]

/-- Witness for C10 on the degenerate triple (5, 5, 10) at T = 5. -/
theorem ctmi_eval_guard_before_division_case :
    ctmi_eval_checked 5 5 5 10 = some 0 ∧
      ctmi_coefficients_checked 5 5 10 = none := by
  have h := ctmi_eval_guard_before_division 5 5 5 10 (Or.inl le_rfl)
  exact ⟨h.1, h.2 (Or.inl rfl)⟩

/-! ### Unimodality of the clamped CTMI polynomial -/

theorem ctmi_mono_leaf {B r x y : ℚ} (hB : 0 < B) (hxp : x < B + r)
    (hyx : y ≤ x) (hy : 2*B < y) :
    0 ≤ ((B+r)*r - B*x) * (x+y) + B*(x-y)*(y-B) - B*x*(y-2*B) := by
  have hx0 : 0 < x := lt_of_lt_of_le (by linarith) hyx
  have hy0 : 0 < y := by linarith
  have hkey : B*(x+2*y-2*B) ≤ r*(x+y) := by
    rcases le_or_lt (3*B) (2*r) with h3 | h3
    · nlinarith [mul_nonneg (sub_nonneg.2 hyx) (by linarith : (0:ℚ) ≤ r - B),
        mul_nonneg hy0.le (by linarith : (0:ℚ) ≤ 2*r - 3*B), sq_nonneg B]
    · nlinarith [mul_nonneg (sub_nonneg.2 hyx) (by linarith : (0:ℚ) ≤ r - B),
        mul_le_mul_of_nonneg_right hxp.le (by linarith : (0:ℚ) ≤ 3*B - 2*r),
        mul_le_mul_of_nonneg_right hyx (by linarith : (0:ℚ) ≤ 3*B - 2*r),
        mul_nonneg (by linarith : (0:ℚ) ≤ r - B) (by linarith : (0:ℚ) ≤ 2*r + B)]
  have hkey2 : x*(B*(x+2*y-2*B)) ≤ x*(r*(x+y)) :=
    mul_le_mul_of_nonneg_left hkey hx0.le
  have hpr : 0 ≤ (B + r - x) * (r * (x+y)) :=
    mul_nonneg (by linarith) (mul_nonneg (by linarith) (by linarith))
  have hmid : 0 ≤ B*(x-y)*(y-B) :=
    mul_nonneg (mul_nonneg hB.le (by linarith)) (by linarith)
  nlinarith [hkey2, hpr, hmid]

theorem ctmi_mono_core {p q u1 u2 : ℚ} (hp : 0 < p) (hq : q < 0)
    (h1 : -p < u1) (h12 : u1 ≤ u2) (h2 : u2 ≤ 0)
    (hc : p*q ≤ (p+q)*u1) :
    0 ≤ (p*q - (p+q)^2) * (u1 + u2) - (p+q) * (u1^2 + u1*u2 + u2^2) := by
  have hpq : p*q < 0 := mul_neg_of_pos_of_neg hp hq
  rcases le_or_lt (p+q) 0 with hB | hB
  · have hs : 0 ≤ -u1 - u2 := by linarith
    have hq12 : 0 ≤ u1*u2 := by
      nlinarith [mul_nonneg (neg_nonneg.2 (show u1 ≤ 0 by linarith)) (neg_nonneg.2 h2)]
    have hA : 0 < (p+q)^2 - p*q := by nlinarith [sq_nonneg (p+q)]
    nlinarith [mul_nonneg hA.le hs, mul_nonneg (neg_nonneg.2 hB) hq12,
      mul_nonneg (neg_nonneg.2 hB) (sq_nonneg u1),
      mul_nonneg (neg_nonneg.2 hB) (sq_nonneg u2)]
  · rcases le_or_lt (-(p+q)) u1 with hu1B | hu1B
    · have hc2 : 0 ≤ (p+q)*u2 - p*q := by
        nlinarith [mul_le_mul_of_nonneg_left h12 hB.le]
      have h1' : 0 ≤ -u1 := by linarith
      have hid : (p*q - (p+q)^2) * (u1 + u2) - (p+q) * (u1^2 + u1*u2 + u2^2) =
          ((p+q)*u2 - p*q) * (-u1-u2) + (p+q)*(-u1)*((p+q)+u1) + (p+q)^2*(-u2) := by
        ring
      rw [hid]
      have t1 : 0 ≤ ((p+q)*u2 - p*q) * (-u1-u2) := mul_nonneg hc2 (by linarith)
      have t2 : 0 ≤ (p+q)*(-u1)*((p+q)+u1) :=
        mul_nonneg (mul_nonneg hB.le h1') (by linarith)
      have t3 : 0 ≤ (p+q)^2*(-u2) := mul_nonneg (sq_nonneg _) (by linarith)
      linarith
    · rcases le_or_lt (-(p+q)) u2 with hu2B | hu2B
      · have hid : (p*q - (p+q)^2) * (u1 + u2) - (p+q) * (u1^2 + u1*u2 + u2^2) =
            ((p+q)*u1 - p*q) * (-u1-u2) + (p+q)*(-u2)*((p+q)+u2) + (p+q)^2*(-u1) := by
          ring
        rw [hid]
        have t1 : 0 ≤ ((p+q)*u1 - p*q) * (-u1-u2) :=
          mul_nonneg (by linarith) (by linarith)
        have t2 : 0 ≤ (p+q)*(-u2)*((p+q)+u2) :=
          mul_nonneg (mul_nonneg hB.le (by linarith)) (by linarith)
        have t3 : 0 ≤ (p+q)^2*(-u1) := mul_nonneg (sq_nonneg _) (by linarith)
        linarith
      · rcases le_or_lt (-(2*(p+q))) u2 with hu2B2 | hu2B2
        · have hid : (p*q - (p+q)^2) * (u1 + u2) - (p+q) * (u1^2 + u1*u2 + u2^2) =
              ((p+q)*u1 - p*q) * (-u1-u2) + (p+q)*(u2-u1)*(-(p+q)-u2) +
                (p+q)*(-u1)*(2*(p+q)+u2) := by
            ring
          rw [hid]
          have t1 : 0 ≤ ((p+q)*u1 - p*q) * (-u1-u2) :=
            mul_nonneg (by linarith) (by linarith)
          have t2 : 0 ≤ (p+q)*(u2-u1)*(-(p+q)-u2) :=
            mul_nonneg (mul_nonneg hB.le (by linarith)) (by linarith)
          have t3 : 0 ≤ (p+q)*(-u1)*(2*(p+q)+u2) :=
            mul_nonneg (mul_nonneg hB.le (by linarith)) (by linarith)
          linarith
        · have hleaf := ctmi_mono_leaf (B := p+q) (r := -q) (x := -u1) (y := -u2)
            hB (by linarith) (by linarith) (by linarith)
          nlinarith [hleaf]

theorem ctmi_factor_pos {Tmin Topt Tmax T : ℚ} (h1 : Tmin < Topt) (h2 : Topt < Tmax)
    (hT1 : Tmin < T) (hT2 : T < Tmax) :
    0 < ((Topt - Tmin) + (Topt - Tmax)) * (T - Topt) +
      ((Topt - Tmin) + (Topt - Tmax)) ^ 2 - (Topt - Tmin) * (Topt - Tmax) := by
  rcases le_or_lt 0 ((Topt - Tmin) + (Topt - Tmax)) with hB | hB
  · have hid : ((Topt - Tmin) + (Topt - Tmax)) * (T - Topt) +
        ((Topt - Tmin) + (Topt - Tmax)) ^ 2 - (Topt - Tmin) * (Topt - Tmax) =
        (Topt - Tmax) ^ 2 + (T - Tmin) * ((Topt - Tmin) + (Topt - Tmax)) := by
      ring
    rw [hid]
    have hsq : 0 < (Topt - Tmax) ^ 2 :=
      pow_two_pos_of_ne_zero (by intro h; nlinarith)
    have hmul : 0 ≤ (T - Tmin) * ((Topt - Tmin) + (Topt - Tmax)) :=
      mul_nonneg (by linarith) hB
    linarith
  · have hid : ((Topt - Tmin) + (Topt - Tmax)) * (T - Topt) +
        ((Topt - Tmin) + (Topt - Tmax)) ^ 2 - (Topt - Tmin) * (Topt - Tmax) =
        (Topt - Tmin) ^ 2 + (T - Tmax) * ((Topt - Tmin) + (Topt - Tmax)) := by
      ring
    rw [hid]
    have hsq : 0 < (Topt - Tmin) ^ 2 :=
      pow_two_pos_of_ne_zero (by intro h; nlinarith)
    have hmul : 0 ≤ (T - Tmax) * ((Topt - Tmin) + (Topt - Tmax)) := by
      have := mul_pos_of_neg_of_neg (show T - Tmax < 0 by linarith) hB
      linarith
    linarith

theorem ctmi_one_sub_cubic {Tmin Topt Tmax : ℚ} (h1 : Tmin < Topt) (h2 : Topt < Tmax)
    (T : ℚ) :
    1 - ctmi_cubic T Tmin Topt Tmax =
      (T - Topt) ^ 2 *
        (((Topt - Tmin) + (Topt - Tmax)) * (T - Topt) +
          ((Topt - Tmin) + (Topt - Tmax)) ^ 2 - (Topt - Tmin) * (Topt - Tmax)) /
        ((Topt - Tmin) * (Topt - Tmax)) ^ 2 := by
  have hd : ((Topt - Tmin) * (Topt - Tmax)) ^ 2 ≠ 0 :=
    ne_of_gt (ctmi_denom_pos h1 h2)
  rw [ctmi_cubic_eq, one_sub_div hd]
  congr 1
  ring

theorem ctmi_cubic_le_one {Tmin Topt Tmax T : ℚ} (h1 : Tmin < Topt) (h2 : Topt < Tmax)
    (hT1 : Tmin < T) (hT2 : T < Tmax) :
    ctmi_cubic T Tmin Topt Tmax ≤ 1 := by
  have hnum : 0 ≤ (T - Topt) ^ 2 *
      (((Topt - Tmin) + (Topt - Tmax)) * (T - Topt) +
        ((Topt - Tmin) + (Topt - Tmax)) ^ 2 - (Topt - Tmin) * (Topt - Tmax)) :=
    mul_nonneg (sq_nonneg _) (le_of_lt (ctmi_factor_pos h1 h2 hT1 hT2))
  have h := div_nonneg hnum (le_of_lt (ctmi_denom_pos h1 h2))
  rw [← ctmi_one_sub_cubic h1 h2] at h
  linarith

theorem ctmi_cubic_lt_one {Tmin Topt Tmax T : ℚ} (h1 : Tmin < Topt) (h2 : Topt < Tmax)
    (hT1 : Tmin < T) (hT2 : T < Tmax) (hne : T ≠ Topt) :
    ctmi_cubic T Tmin Topt Tmax < 1 := by
  have hnum : 0 < (T - Topt) ^ 2 *
      (((Topt - Tmin) + (Topt - Tmax)) * (T - Topt) +
        ((Topt - Tmin) + (Topt - Tmax)) ^ 2 - (Topt - Tmin) * (Topt - Tmax)) :=
    mul_pos (pow_two_pos_of_ne_zero (sub_ne_zero.2 hne))
      (ctmi_factor_pos h1 h2 hT1 hT2)
  have h := div_pos hnum (ctmi_denom_pos h1 h2)
  rw [← ctmi_one_sub_cubic h1 h2] at h
  linarith

theorem ctmi_cubic_sub (Tmin Topt Tmax T1 T2 : ℚ) :
    ctmi_cubic T2 Tmin Topt Tmax - ctmi_cubic T1 Tmin Topt Tmax =
      (T2 - T1) *
        (((Topt - Tmin) * (Topt - Tmax) - ((Topt - Tmin) + (Topt - Tmax)) ^ 2) *
            ((T1 - Topt) + (T2 - Topt)) -
          ((Topt - Tmin) + (Topt - Tmax)) *
            ((T1 - Topt) ^ 2 + (T1 - Topt) * (T2 - Topt) + (T2 - Topt) ^ 2)) /
        ((Topt - Tmin) * (Topt - Tmax)) ^ 2 := by
  rw [ctmi_cubic_eq, ctmi_cubic_eq, div_sub_div_same]
  congr 1
  ring

theorem ctmi_eval_in_range {Tmin Topt Tmax T : ℚ} (hT1 : Tmin < T) (hT2 : T < Tmax) :
    ctmi_eval T Tmin Topt Tmax = max 0 (min 1 (ctmi_cubic T Tmin Topt Tmax)) := by
  rw [ctmi_eval, if_neg]
  push_neg
  exact ⟨hT1, hT2⟩

theorem ctmi_eval_mono_left {Tmin Topt Tmax T1 T2 : ℚ}
    (h1 : Tmin < Topt) (h2 : Topt < Tmax)
    (hT1 : Tmin < T1) (h12 : T1 ≤ T2) (hT2 : T2 ≤ Topt) :
    ctmi_eval T1 Tmin Topt Tmax ≤ ctmi_eval T2 Tmin Topt Tmax := by
  have hT1b : T1 < Tmax := by linarith
  have hT2a : Tmin < T2 := by linarith
  have hT2b : T2 < Tmax := by linarith
  rw [ctmi_eval_in_range hT1 hT1b, ctmi_eval_in_range hT2a hT2b,
    min_eq_right (ctmi_cubic_le_one h1 h2 hT1 hT1b),
    min_eq_right (ctmi_cubic_le_one h1 h2 hT2a hT2b)]
  by_cases hc : (Topt - Tmin) * (Topt - Tmax) ≤
      ((Topt - Tmin) + (Topt - Tmax)) * (T1 - Topt)
  · have hcore := @ctmi_mono_core (Topt - Tmin) (Topt - Tmax)
      (T1 - Topt) (T2 - Topt)
      (by linarith) (by linarith) (by linarith) (by linarith) (by linarith) hc
    have hnum : 0 ≤ (T2 - T1) *
        (((Topt - Tmin) * (Topt - Tmax) - ((Topt - Tmin) + (Topt - Tmax)) ^ 2) *
            ((T1 - Topt) + (T2 - Topt)) -
          ((Topt - Tmin) + (Topt - Tmax)) *
            ((T1 - Topt) ^ 2 + (T1 - Topt) * (T2 - Topt) + (T2 - Topt) ^ 2)) := by
      apply mul_nonneg (by linarith)
      nlinarith [hcore]
    have hdiff := div_nonneg hnum (le_of_lt (ctmi_denom_pos h1 h2))
    rw [← ctmi_cubic_sub] at hdiff
    exact max_le_max le_rfl (by linarith)
  · push_neg at hc
    have hneg : ctmi_cubic T1 Tmin Topt Tmax ≤ 0 := by
      rw [ctmi_cubic_eq]
      apply div_nonpos_of_nonpos_of_nonneg _ (le_of_lt (ctmi_denom_pos h1 h2))
      have hfac : 0 < (Topt - Tmin) * (Topt - Tmax) -
          ((Topt - Tmin) + (Topt - Tmax)) * (T1 - Topt) := by linarith
      have hprod : (T1 - Tmin) * (T1 - Tmax) ≤ 0 :=
        mul_nonpos_of_nonneg_of_nonpos (by linarith) (by linarith)
      exact mul_nonpos_of_nonpos_of_nonneg hprod (le_of_lt hfac)
    rw [max_eq_left hneg]
    exact le_max_left _ _

theorem ctmi_eval_reflect (T Tmin Topt Tmax : ℚ) :
    ctmi_eval T Tmin Topt Tmax = ctmi_eval (-T) (-Tmax) (-Topt) (-Tmin) := by
  have hcube : ctmi_cubic T Tmin Topt Tmax = ctmi_cubic (-T) (-Tmax) (-Topt) (-Tmin) := by
    rw [ctmi_cubic_eq, ctmi_cubic_eq]
    congr 1
    · ring
    · ring
  rw [ctmi_eval, ctmi_eval]
  by_cases h : T ≤ Tmin ∨ Tmax ≤ T
  · rw [if_pos h, if_pos]
    rcases h with h' | h'
    · exact Or.inr (by linarith)
    · exact Or.inl (by linarith)
  · rw [if_neg h, if_neg, hcube]
    push_neg at h ⊢
    constructor <;> linarith [h.1, h.2]

theorem ctmi_eval_mono_right {Tmin Topt Tmax T1 T2 : ℚ}
    (h1 : Tmin < Topt) (h2 : Topt < Tmax)
    (hT1 : Topt ≤ T1) (h12 : T1 ≤ T2) (hT2 : T2 < Tmax) :
    ctmi_eval T2 Tmin Topt Tmax ≤ ctmi_eval T1 Tmin Topt Tmax := by
  rw [ctmi_eval_reflect T1 Tmin Topt Tmax, ctmi_eval_reflect T2 Tmin Topt Tmax]
  exact ctmi_eval_mono_left (by linarith) (by linarith) (by linarith)
    (by linarith) (by linarith)

theorem ctmi_eval_bounds (T Tmin Topt Tmax : ℚ) :
    0 ≤ ctmi_eval T Tmin Topt Tmax ∧ ctmi_eval T Tmin Topt Tmax ≤ 1 := by
  rw [ctmi_eval]
  by_cases h : T ≤ Tmin ∨ Tmax ≤ T
  · rw [if_pos h]
    norm_num
  · rw [if_neg h]
    exact ⟨le_max_left _ _, max_le (by norm_num) (min_le_left _ _)⟩

theorem ctmi_eval_lt_one {Tmin Topt Tmax T : ℚ} (h1 : Tmin < Topt) (h2 : Topt < Tmax)
    (hne : T ≠ Topt) :
    ctmi_eval T Tmin Topt Tmax < 1 := by
  by_cases h : T ≤ Tmin ∨ Tmax ≤ T
  · rw [ctmi_eval, if_pos h]
    norm_num
  · push_neg at h
    rw [ctmi_eval_in_range h.1 h.2,
      min_eq_right (ctmi_cubic_le_one h1 h2 h.1 h.2)]
    exact max_lt (by norm_num) (ctmi_cubic_lt_one h1 h2 h.1 h.2 hne)

/-- Claim C2: for every triple with Tmin < Topt < Tmax, the clamped CTMI
limitation T ↦ ctmi_eval(T, ...) stays in [0, 1] everywhere, is
monotonically non-decreasing on (Tmin, Topt], monotonically non-increasing
on [Topt, Tmax), and attains its maximum value 1 exactly at the unique
interior point T = Topt. -/
theorem ctmi_eval_unimodal {Tmin Topt Tmax : ℚ}
    (h1 : Tmin < Topt) (h2 : Topt < Tmax) :
    (∀ T : ℚ, 0 ≤ ctmi_eval T Tmin Topt Tmax ∧ ctmi_eval T Tmin Topt Tmax ≤ 1) ∧
    (∀ T1 T2 : ℚ, Tmin < T1 → T1 ≤ T2 → T2 ≤ Topt →
      ctmi_eval T1 Tmin Topt Tmax ≤ ctmi_eval T2 Tmin Topt Tmax) ∧
    (∀ T1 T2 : ℚ, Topt ≤ T1 → T1 ≤ T2 → T2 < Tmax →
      ctmi_eval T2 Tmin Topt Tmax ≤ ctmi_eval T1 Tmin Topt Tmax) ∧
    ctmi_eval Topt Tmin Topt Tmax = 1 ∧
    (∀ T : ℚ, T ≠ Topt → ctmi_eval T Tmin Topt Tmax < 1) := by
  refine ⟨fun T => ctmi_eval_bounds T Tmin Topt Tmax,
    fun T1 T2 hT1 h12 hT2 => ctmi_eval_mono_left h1 h2 hT1 h12 hT2,
    fun T1 T2 hT1 h12 hT2 => ctmi_eval_mono_right h1 h2 hT1 h12 hT2,
    ?_, fun T hne => ctmi_eval_lt_one h1 h2 hne⟩
  exact ctmi_eval_at_topt h1 h2

/-- Witness for C2 on the documented P1 diatom parameters (2, 15, 30). -/
theorem ctmi_eval_unimodal_case :
    ctmi_eval 5 2 15 30 ≤ ctmi_eval 10 2 15 30 ∧
    ctmi_eval 25 2 15 30 ≤ ctmi_eval 20 2 15 30 ∧
    ctmi_eval 15 2 15 30 = 1 ∧ ctmi_eval 20 2 15 30 < 1 ∧
    0 ≤ ctmi_eval 7 2 15 30 ∧ ctmi_eval 7 2 15 30 ≤ 1 := by
  have h := @ctmi_eval_unimodal 2 15 30 (by norm_num) (by norm_num)
  exact ⟨h.2.1 5 10 (by norm_num) (by norm_num) (by norm_num),
    h.2.2.1 20 25 (by norm_num) (by norm_num) (by norm_num),
    h.2.2.2.1, h.2.2.2.2 20 (by norm_num), (h.1 7).1, (h.1 7).2⟩

/-- Counterexample to claim C3: for the valid triple (Tmin, Topt, Tmax) =
(0, 10, 40) — the shape of the repo's own `wide_range` edge case — the
unclamped cubic at the interior temperature T = 30 equals −1/3, far below
the claimed tolerance of −1e-10.  The clamp's lower bound therefore masks
a materially negative polynomial value, not just floating-point noise. -/
theorem ctmi_cubic_overshoot_counterexample :
    (0:ℚ) < 10 ∧ (10:ℚ) < 40 ∧ (0:ℚ) < 30 ∧ (30:ℚ) < 40 ∧
    ctmi_cubic 30 0 10 40 = -(1/3) ∧
    ctmi_cubic 30 0 10 40 < -(1/10000000000) := by
  have hval : ctmi_cubic 30 0 10 40 = -(1/3) := by
    rw [ctmi_cubic_eq]
    norm_num
  exact ⟨by norm_num, by norm_num, by norm_num, by norm_num, hval,
    by rw [hval]; norm_num⟩

/-- Claim C3 (amended): for every valid triple and every T strictly inside
(Tmin, Tmax), the unclamped cubic never exceeds 1 (so the upper clamp only
guards rounding noise), but — per the counterexample — the cubic can fall
materially below 0, so the lower clamp is load-bearing. -/
theorem ctmi_cubic_never_exceeds_one {Tmin Topt Tmax T : ℚ}
    (h1 : Tmin < Topt) (h2 : Topt < Tmax) (hT1 : Tmin < T) (hT2 : T < Tmax) :
    ctmi_cubic T Tmin Topt Tmax ≤ 1 :=
  ctmi_cubic_le_one h1 h2 hT1 hT2

/-- Witness for the amended C3 on (2, 15, 30) at T = 10. -/
theorem ctmi_cubic_never_exceeds_one_case :
    ctmi_cubic 10 2 15 30 ≤ 1 :=
  ctmi_cubic_never_exceeds_one (by norm_num) (by norm_num) (by norm_num)
    (by norm_num)

/-! ### Depth interpolation and extraction resilience -/

theorem interp_clamp_below (x x0 f0 : ℚ) (ps : List (ℚ × ℚ)) (h : x ≤ x0) :
    interp x ((x0, f0) :: ps) = f0 := by
  cases ps with
  | nil => simp [interp]
  | cons p1 rest =>
    simp only [interp]
    rw [if_pos h]

theorem interp_clamp_above (x : ℚ) : ∀ (p0 : ℚ × ℚ) (ps : List (ℚ × ℚ)),
    (∀ p ∈ p0 :: ps, p.1 < x) →
    interp x (p0 :: ps) = ((p0 :: ps).getLast (List.cons_ne_nil p0 ps)).2 := by
  intro p0 ps
  induction ps generalizing p0 with
  | nil => intro h; simp [interp]
  | cons p1 rest ih =>
    intro h
    have h0 : p0.1 < x := h p0 (List.mem_cons_self p0 _)
    have h1 : p1.1 < x := h p1 (List.mem_cons_of_mem _ (List.mem_cons_self p1 _))
    simp only [interp]
    rw [if_neg (not_le.2 h0), if_neg (not_le.2 h1)]
    rw [ih p1 (fun p hp => h p (List.mem_cons_of_mem _ hp))]
    conv_rhs => rw [List.getLast_cons (List.cons_ne_nil p1 rest)]

/-- Claim C6: for each timestep of a profile (gotm) dataset, the pipeline
queries the field at depth_offset = depth_base + zi[i, last interface]
(with depth_base = 0) by monotone linear interpolation of field[i, :]
against the layer-centre depths z[i, :], clamping to the nearest endpoint
when the query falls outside their range; in particular for z = [0, 5, 10]
and field = [1.0, 2.0, 3.0] the query 5 yields 2.0, the query −1 yields
1.0, and the query 12 yields 3.0. -/
theorem gotm_depth_interpolation :
    (∀ (ziRow zRow fRow : List ℚ) (ziRest zRest fRest : List (List ℚ)),
      ziRow ≠ [] → zRow ≠ [] → zRow.length = fRow.length →
      gotmReduceE (ziRow :: ziRest) (zRow :: zRest) (fRow :: fRest) =
        (gotmReduceE ziRest zRest fRest).map
          (fun rest => interp (depthBase + ziRow.getLastD 0) (zRow.zip fRow) :: rest)) ∧
    depthBase = 0 ∧
    (∀ (x x0 f0 : ℚ) (ps : List (ℚ × ℚ)), x ≤ x0 → interp x ((x0, f0) :: ps) = f0) ∧
    (∀ (x : ℚ) (p0 : ℚ × ℚ) (ps : List (ℚ × ℚ)),
      (∀ p ∈ p0 :: ps, p.1 < x) →
      interp x (p0 :: ps) = ((p0 :: ps).getLast (List.cons_ne_nil p0 ps)).2) ∧
    gotmReduceE [[5]] [[0, 5, 10]] [[1, 2, 3]] = some [2] ∧
    gotmReduceE [[-1]] [[0, 5, 10]] [[1, 2, 3]] = some [1] ∧
    gotmReduceE [[12]] [[0, 5, 10]] [[1, 2, 3]] = some [3] := by
  refine ⟨?_, rfl, interp_clamp_below, interp_clamp_above, ?_, ?_, ?_⟩
  · intro ziRow zRow fRow ziRest zRest fRest h1 h2 h3
    simp only [gotmReduceE]
    rw [if_neg]
    push_neg
    exact ⟨h1, h2, h3⟩
  · norm_num [gotmReduceE, interp, depthBase, List.zip]
    intro h
    simp at h
  · norm_num [gotmReduceE, interp, depthBase, List.zip]
    intro h
    simp at h
  · norm_num [gotmReduceE, interp, depthBase, List.zip]
    intro h
    simp at h

/-- Witness for C6: below-range clamping at a fresh concrete input. -/
theorem gotm_depth_interpolation_case :
    interp (-7) [((0 : ℚ), (1 : ℚ)), (5, 2)] = 1 :=
  gotm_depth_interpolation.2.2.1 (-7) 0 1 [(5, 2)] (by norm_num)

/-- Claim C4 (code bug): for the gotm state-variable dataset kind, the
rank-4 branch evaluates `expected_results[v][-1, :]` — a lookup of the
field in the still-unpopulated result dictionary — which always raises
KeyError, so the field is silently dropped instead of being reduced to the
final timestep's slice of the variable's data.  On a concrete rank-4
variable the produced result set is empty, while the spec-modelled
reduction yields the final-timestep slice. -/
theorem gotm_state_rank4_dropped :
    extractLoop ModelRun.gotm "expected_state"
      ⟨[("N1_p", ⟨4, NCData.d2 [[1, 2], [3, 4]]⟩)], some []⟩ ["N1_p"] [] = [] ∧
    extractField ModelRun.gotm "expected_state"
      ⟨[("N1_p", ⟨4, NCData.d2 [[1, 2], [3, 4]]⟩)], some []⟩ [] "N1_p" = none ∧
    specGotmStateRank4 ⟨4, NCData.d2 [[1, 2], [3, 4]]⟩ =
      some (NCValue.arr (NCData.d1 [3, 4])) := by
  refine ⟨?_, ?_, ?_⟩ <;> decide

theorem extractField_congr (mr : ModelRun) (key : String) (d : Dataset)
    (r1 r2 : List (String × NCValue)) (v : String)
    (h : r1.lookup v = r2.lookup v) :
    extractField mr key d r1 v = extractField mr key d r2 v := by
  rw [extractField, extractField, h]

theorem lookup_none_append {α β : Type} [BEq α] (l1 l2 : List (α × β)) (a : α)
    (h1 : l1.lookup a = none) : (l1 ++ l2).lookup a = l2.lookup a := by
  induction l1 with
  | nil => simp
  | cons hd tl ih =>
    rw [List.cons_append]
    rw [List.lookup] at h1 ⊢
    cases hbeq : (a == hd.1) with
    | true => rw [hbeq] at h1; simp at h1
    | false =>
      rw [hbeq] at h1
      simp only at h1 ⊢
      exact ih h1

theorem extractLoop_eq_pure (mr : ModelRun) (key : String) (d : Dataset) :
    ∀ (items : List String) (acc : List (String × NCValue)),
    items.Nodup → (∀ v ∈ items, acc.lookup v = none) →
    extractLoop mr key d items acc = acc ++ pureExtract mr key d items := by
  intro items
  induction items with
  | nil => intro acc _ _; simp [extractLoop, pureExtract]
  | cons v vs ih =>
    intro acc hnd hacc
    have hv : acc.lookup v = none := hacc v (List.mem_cons_self v vs)
    have hstep : extractField mr key d acc v = extractField mr key d [] v :=
      extractField_congr mr key d acc [] v (by rw [hv]; rfl)
    rw [extractLoop, pureExtract, hstep]
    cases hres : extractField mr key d [] v with
    | none =>
      show extractLoop mr key d vs acc = acc ++ pureExtract mr key d vs
      exact ih acc (List.Nodup.of_cons hnd)
        (fun w hw => hacc w (List.mem_cons_of_mem _ hw))
    | some val =>
      show extractLoop mr key d vs (acc ++ [(v, val)]) =
        acc ++ ((v, val) :: pureExtract mr key d vs)
      rw [ih (acc ++ [(v, val)]) (List.Nodup.of_cons hnd) ?_]
      · rw [List.append_assoc]
        rfl
      · intro w hw
        rw [lookup_none_append _ _ _ (hacc w (List.mem_cons_of_mem _ hw))]
        have hne : w ≠ v := by
          intro hEq
          rw [hEq] at hw
          exact (List.nodup_cons.1 hnd).1 hw
        rw [List.lookup]
        simp [beq_eq_false_iff_ne.2 hne]

theorem pureExtract_erase (mr : ModelRun) (key : String) (d : Dataset) (v0 : String)
    (hfail : extractField mr key d [] v0 = none) :
    ∀ items : List String,
      pureExtract mr key d items = pureExtract mr key d (items.erase v0) := by
  intro items
  induction items with
  | nil => simp
  | cons v vs ih =>
    by_cases hv : v = v0
    · subst hv
      rw [List.erase_cons_head]
      rw [pureExtract, hfail]
    · rw [List.erase_cons_tail (by simp [hv])]
      rw [pureExtract, pureExtract]
      cases hres : extractField mr key d [] v with
      | none => exact ih
      | some val => rw [ih]

theorem pureExtract_all_some (mr : ModelRun) (key : String) (d : Dataset) :
    ∀ items : List String,
      (∀ v ∈ items, (extractField mr key d [] v).isSome) →
      (pureExtract mr key d items).length = items.length := by
  intro items
  induction items with
  | nil => intro _; rfl
  | cons v vs ih =>
    intro h
    have hv := h v (List.mem_cons_self v vs)
    rw [pureExtract]
    cases hres : extractField mr key d [] v with
    | none => rw [hres] at hv; simp at hv
    | some val =>
      simp only [List.length_cons]
      rw [ih (fun w hw => h w (List.mem_cons_of_mem _ hw))]

/-- Claim C7: extraction is best-effort per field.  If among N requested
(pairwise distinct) fields exactly one fails and the rest succeed, the
result set equals the one produced when the failing field is not requested
at all — so every surviving entry is unchanged — and it holds exactly
N − 1 entries; the failure does not abort the run. -/
theorem extraction_best_effort (mr : ModelRun) (key : String) (d : Dataset)
    (items : List String) (v0 : String)
    (hnd : items.Nodup) (hv0 : v0 ∈ items)
    (hfail : extractField mr key d [] v0 = none)
    (hsucc : ∀ v ∈ items, v ≠ v0 → (extractField mr key d [] v).isSome) :
    extractLoop mr key d items [] = extractLoop mr key d (items.erase v0) [] ∧
    (extractLoop mr key d items []).length = items.length - 1 := by
  have h1 : extractLoop mr key d items [] = pureExtract mr key d items := by
    have := extractLoop_eq_pure mr key d items [] hnd (fun v _ => rfl)
    simpa using this
  have h2 : extractLoop mr key d (items.erase v0) [] =
      pureExtract mr key d (items.erase v0) := by
    have := extractLoop_eq_pure mr key d (items.erase v0) [] (hnd.erase v0)
      (fun v _ => rfl)
    simpa using this
  have h3 : pureExtract mr key d items = pureExtract mr key d (items.erase v0) :=
    pureExtract_erase mr key d v0 hfail items
  refine ⟨by rw [h1, h2, h3], ?_⟩
  rw [h1, h3, pureExtract_all_some mr key d (items.erase v0) ?_,
    List.length_erase_of_mem hv0]
  intro v hv
  have hmem := List.mem_of_mem_erase hv
  have hne : v ≠ v0 := ((List.Nodup.mem_erase_iff hnd).1 hv).1
  exact hsucc v hmem hne

/-- Witness for C7: a three-field fabm0d batch where the middle field is
missing from the dataset produces the same two entries as the two-field
run, and exactly 3 − 1 entries. -/
theorem extraction_best_effort_case :
    extractLoop ModelRun.fabm0d "expected"
      ⟨[("temp", ⟨3, NCData.d1 [1, 2]⟩), ("salt", ⟨3, NCData.d1 [4, 5]⟩)], some []⟩
      ["temp", "missing", "salt"] [] =
    extractLoop ModelRun.fabm0d "expected"
      ⟨[("temp", ⟨3, NCData.d1 [1, 2]⟩), ("salt", ⟨3, NCData.d1 [4, 5]⟩)], some []⟩
      (["temp", "missing", "salt"].erase "missing") [] ∧
    (extractLoop ModelRun.fabm0d "expected"
      ⟨[("temp", ⟨3, NCData.d1 [1, 2]⟩), ("salt", ⟨3, NCData.d1 [4, 5]⟩)], some []⟩
      ["temp", "missing", "salt"] []).length =
      (["temp", "missing", "salt"] : List String).length - 1 :=
  extraction_best_effort ModelRun.fabm0d "expected"
    ⟨[("temp", ⟨3, NCData.d1 [1, 2]⟩), ("salt", ⟨3, NCData.d1 [4, 5]⟩)], some []⟩
    ["temp", "missing", "salt"] "missing"
    (by decide) (by decide) (by decide) (by decide)

/-! ### Oracle bridge unit conversions -/

/-- Claim C5: the bridge multiplies DIC and TA by 1e6 (mol/kg to umol/kg)
before calling the external solver and multiplies the returned pCO2 by
1e-6 (uatm to atm) before persisting it, and the two factors are exact
inverses: (x * 1e6) * 1e-6 = x for every x. -/
theorem oracle_bridge_unit_conversions (solver : ℚ → ℚ → ℚ → ℚ → ℚ × ℚ)
    (c : CarbonateCase) :
    generate_reference_case solver c =
      { T := c.T, S := c.S, DIC := c.DIC, TA := c.TA,
        pH := (solver (molkgToUmolkg c.TA) (molkgToUmolkg c.DIC) c.T c.S).1,
        pCO2 := uatmToAtm
          ((solver (molkgToUmolkg c.TA) (molkgToUmolkg c.DIC) c.T c.S).2) } ∧
    (∀ x : ℚ, molkgToUmolkg x = x * 1000000) ∧
    (∀ x : ℚ, uatmToAtm x = x * (1 / 1000000)) ∧
    (∀ x : ℚ, uatmToAtm (molkgToUmolkg x) = x) := by
  refine ⟨rfl, fun x => rfl, fun x => rfl, fun x => ?_⟩
  rw [molkgToUmolkg, uatmToAtm]
  ring

/-- Witness for C5 on the first fixed test vector, with a stub solver. -/
theorem oracle_bridge_unit_conversions_case :
    uatmToAtm (molkgToUmolkg (123 / 456)) = 123 / 456 ∧
    (generate_reference_case (fun _ _ _ _ => ((81 : ℚ) / 10, 345))
      ⟨25, 35, 21 / 10000, 23 / 10000⟩).pCO2 = uatmToAtm 345 := by
  have h := oracle_bridge_unit_conversions (fun _ _ _ _ => ((81 : ℚ) / 10, 345))
    ⟨25, 35, 21 / 10000, 23 / 10000⟩
  exact ⟨h.2.2.2 (123 / 456), by rw [h.1]⟩

/-! ### Reference CSV row formatting -/

theorem sciExpAux_mid (fuel : Nat) (x : ℚ) (e : ℤ) (h1 : 1 ≤ x) (h2 : x < 10) :
    sciExpAux fuel x e = e := by
  cases fuel with
  | zero => rfl
  | succ f =>
    simp only [sciExpAux]
    rw [if_neg (not_lt.2 h1), if_neg (not_le.2 h2)]

theorem sciExpAux_up : ∀ (fuel : Nat) (x : ℚ) (e : ℤ), 1 ≤ x → x < (10:ℚ)^fuel →
    (10:ℚ)^(sciExpAux fuel x e) ≤ x * (10:ℚ)^e ∧
      x * (10:ℚ)^e < (10:ℚ)^(sciExpAux fuel x e + 1) := by
  intro fuel
  induction fuel with
  | zero =>
    intro x e h1 h2
    rw [pow_zero] at h2
    exact absurd h2 (not_lt.2 h1)
  | succ f ih =>
    intro x e h1 h2
    simp only [sciExpAux]
    rw [if_neg (not_lt.2 h1)]
    by_cases h10 : 10 ≤ x
    · rw [if_pos h10]
      have hx1 : (1:ℚ) ≤ x / 10 := by
        rw [le_div_iff (by norm_num : (0:ℚ) < 10)]
        linarith
      have hx2 : x / 10 < (10:ℚ)^f := by
        rw [div_lt_iff (by norm_num : (0:ℚ) < 10)]
        calc x < (10:ℚ)^(f+1) := h2
        _ = (10:ℚ)^f * 10 := by rw [pow_succ]
      have hrw : x / 10 * (10:ℚ)^(e+1) = x * (10:ℚ)^e := by
        rw [zpow_add₀ (by norm_num : (10:ℚ) ≠ 0), zpow_one]
        ring
      have := ih (x/10) (e+1) hx1 hx2
      rw [hrw] at this
      exact this
    · rw [if_neg h10]
      push_neg at h10
      have hzpos : (0:ℚ) < (10:ℚ)^e := zpow_pos (by norm_num) e
      constructor
      · exact le_mul_of_one_le_left hzpos.le h1
      · rw [zpow_add₀ (by norm_num : (10:ℚ) ≠ 0), zpow_one]
        calc x * (10:ℚ)^e < 10 * (10:ℚ)^e :=
          mul_lt_mul_of_pos_right h10 hzpos
        _ = (10:ℚ)^e * 10 := by ring

theorem sciExpAux_down : ∀ (fuel : Nat) (x : ℚ) (e : ℤ), 0 < x → x < 1 →
    1 ≤ x * (10:ℚ)^fuel →
    (10:ℚ)^(sciExpAux fuel x e) ≤ x * (10:ℚ)^e ∧
      x * (10:ℚ)^e < (10:ℚ)^(sciExpAux fuel x e + 1) := by
  intro fuel
  induction fuel with
  | zero =>
    intro x e _ h2 h3
    rw [pow_zero, mul_one] at h3
    exact absurd h2 (not_lt.2 h3)
  | succ f ih =>
    intro x e hx h2 h3
    simp only [sciExpAux]
    rw [if_pos h2]
    by_cases h10 : x * 10 < 1
    · have h3' : 1 ≤ x * 10 * (10:ℚ)^f := by
        calc (1:ℚ) ≤ x * (10:ℚ)^(f+1) := h3
        _ = x * 10 * (10:ℚ)^f := by rw [pow_succ]; ring
      have hrw : x * 10 * (10:ℚ)^(e-1) = x * (10:ℚ)^e := by
        rw [show e = (e-1) + 1 by ring, zpow_add₀ (by norm_num : (10:ℚ) ≠ 0),
          zpow_one]
        ring_nf
      have := ih (x*10) (e-1) (by linarith) h10 h3'
      rw [hrw] at this
      exact this
    · push_neg at h10
      have hlt10 : x * 10 < 10 := by linarith
      rw [sciExpAux_mid f (x*10) (e-1) h10 hlt10]
      have hzpos : (0:ℚ) < (10:ℚ)^(e-1 : ℤ) := zpow_pos (by norm_num) _
      have hrw : x * (10:ℚ)^e = x * 10 * (10:ℚ)^(e-1) := by
        rw [show e = (e-1) + 1 by ring, zpow_add₀ (by norm_num : (10:ℚ) ≠ 0),
          zpow_one]
        ring_nf
      constructor
      · rw [hrw]
        exact le_mul_of_one_le_left hzpos.le h10
      · rw [show (e - 1) + 1 = e by ring]
        calc x * (10:ℚ)^e < 1 * (10:ℚ)^e :=
          mul_lt_mul_of_pos_right h2 (zpow_pos (by norm_num) e)
        _ = (10:ℚ)^e := one_mul _

theorem sciExp_spec (x : ℚ) (hx : 0 < x) :
    (10:ℚ)^(sciExp x) ≤ x ∧ x < (10:ℚ)^(sciExp x + 1) := by
  rw [sciExp]
  rcases lt_or_le x 1 with h1 | h1
  · have hnum : 1 ≤ x.num := Rat.num_pos.2 hx
    have hden0 : (0:ℚ) < (x.den : ℚ) := by exact_mod_cast x.den_pos
    have hxge : 1 / (x.den : ℚ) ≤ x := by
      have hstep : 1 / (x.den : ℚ) ≤ (x.num : ℚ) / (x.den : ℚ) := by
        gcongr
        exact_mod_cast hnum
      rwa [Rat.num_div_den x] at hstep
    have hdd : (x.den : ℚ) ≤ (10:ℚ)^(x.den) := by
      have h2 : (x.den : ℚ) < (2:ℚ)^(x.den) := by
        exact_mod_cast Nat.lt_two_pow x.den
      have h2b : (2:ℚ)^(x.den) ≤ (10:ℚ)^(x.den) :=
        pow_le_pow_left (by norm_num) (by norm_num) _
      linarith
    have h1x : 1 ≤ x * (10:ℚ)^(x.den) := by
      have hmm := mul_le_mul hxge hdd hden0.le (le_of_lt hx)
      rw [div_mul_cancel₀ 1 (ne_of_gt hden0)] at hmm
      exact hmm
    have hp1 : (1:ℚ) ≤ (10:ℚ)^(x.num.natAbs + 1) := by
      have := pow_le_pow_left (by norm_num : (0:ℚ) ≤ 1)
        (by norm_num : (1:ℚ) ≤ 10) (x.num.natAbs + 1)
      simpa using this
    have hfuel : 1 ≤ x * (10:ℚ)^(x.den + x.num.natAbs + 1) := by
      have hsplit : (10:ℚ)^(x.den + x.num.natAbs + 1) =
          (10:ℚ)^(x.den) * (10:ℚ)^(x.num.natAbs + 1) := by
        rw [show x.den + x.num.natAbs + 1 = x.den + (x.num.natAbs + 1) from by omega,
          pow_add]
      rw [hsplit, ← mul_assoc]
      calc (1:ℚ) ≤ x * (10:ℚ)^(x.den) := h1x
      _ ≤ x * (10:ℚ)^(x.den) * (10:ℚ)^(x.num.natAbs + 1) :=
        le_mul_of_one_le_right (by positivity) hp1
    have := sciExpAux_down (x.den + x.num.natAbs + 1) x 0 hx h1 hfuel
    simpa using this
  · have hnum : 1 ≤ x.num := Rat.num_pos.2 hx
    have hnum0 : (0:ℚ) ≤ (x.num : ℚ) := by
      exact_mod_cast le_of_lt (lt_of_lt_of_le zero_lt_one hnum)
    have hcast : (x.num.natAbs : ℚ) = (x.num : ℚ) := by
      have habs : |x.num| = x.num := abs_of_nonneg (by omega)
      rw [Int.cast_natAbs]
      exact_mod_cast habs
    have hxle : x ≤ (x.num.natAbs : ℚ) := by
      have hden1 : (1:ℚ) ≤ (x.den : ℚ) := by exact_mod_cast x.den_pos
      calc x = (x.num : ℚ) / (x.den : ℚ) := (Rat.num_div_den x).symm
      _ ≤ (x.num : ℚ) / 1 := by gcongr
      _ = (x.num : ℚ) := div_one _
      _ = (x.num.natAbs : ℚ) := hcast.symm
    have hbound : x < (10:ℚ)^(x.den + x.num.natAbs + 1) := by
      have h2 : (x.num.natAbs : ℚ) < (2:ℚ)^(x.num.natAbs) := by
        exact_mod_cast Nat.lt_two_pow x.num.natAbs
      have h2b : (2:ℚ)^(x.num.natAbs) ≤ (10:ℚ)^(x.num.natAbs) :=
        pow_le_pow_left (by norm_num) (by norm_num) _
      have hmono : (10:ℚ)^(x.num.natAbs) ≤ (10:ℚ)^(x.den + x.num.natAbs + 1) :=
        pow_le_pow_right (by norm_num) (by omega)
      linarith
    have := sciExpAux_up (x.den + x.num.natAbs + 1) x 0 h1 hbound
    simpa using this

theorem sciExp_eq_of_bounds (x : ℚ) (e : ℤ) (hx : 0 < x)
    (h1 : (10:ℚ)^e ≤ x) (h2 : x < (10:ℚ)^(e+1)) : sciExp x = e := by
  obtain ⟨hl, hr⟩ := sciExp_spec x hx
  by_contra hne
  rcases lt_or_gt_of_ne hne with hlt | hgt
  · have hle : (10:ℚ)^(sciExp x + 1) ≤ (10:ℚ)^e :=
      zpow_le_zpow_right₀ (by norm_num) (by omega)
    linarith
  · have hle : (10:ℚ)^(e+1) ≤ (10:ℚ)^(sciExp x) :=
      zpow_le_zpow_right₀ (by norm_num) (by omega)
    linarith

theorem pyRoundInt_intCast (n : ℤ) : pyRoundInt (n : ℚ) = n := by
  simp only [pyRoundInt, Int.floor_intCast, sub_self]
  norm_num

theorem floor_le_pyRoundInt (x : ℚ) : ⌊x⌋ ≤ pyRoundInt x := by
  simp only [pyRoundInt]
  split_ifs <;> omega

theorem pyRoundInt_le_floor_add_one (x : ℚ) : pyRoundInt x ≤ ⌊x⌋ + 1 := by
  simp only [pyRoundInt]
  split_ifs <;> omega

theorem sciScaledExp_bounds (prec : Nat) (x : ℚ) (hx : 0 < x) :
    (10:ℤ)^prec ≤ (sciScaledExp prec x).1 ∧
      (sciScaledExp prec x).1 < 10^(prec+1) := by
  obtain ⟨hlo, hhi⟩ := sciExp_spec x hx
  have hzpos : (0:ℚ) < (10:ℚ)^(sciExp x) := zpow_pos (by norm_num) _
  have hppos : (0:ℚ) < (10:ℚ)^(prec : ℕ) := by positivity
  have hm1 : (1:ℚ) ≤ x / (10:ℚ)^(sciExp x) := (one_le_div hzpos).2 hlo
  have hm2 : x / (10:ℚ)^(sciExp x) < 10 := by
    rw [div_lt_iff hzpos]
    calc x < (10:ℚ)^(sciExp x + 1) := hhi
    _ = 10 * (10:ℚ)^(sciExp x) := by
      rw [zpow_add₀ (by norm_num : (10:ℚ) ≠ 0), zpow_one]
      ring
  set v := x / (10:ℚ)^(sciExp x) * (10:ℚ)^(prec : ℕ) with hv
  have hv1 : ((10:ℚ)^(prec : ℕ)) ≤ v := le_mul_of_one_le_left hppos.le hm1
  have hv2 : v < (10:ℚ)^(prec+1 : ℕ) := by
    rw [hv, pow_succ]
    have h := mul_lt_mul_of_pos_right hm2 hppos
    linarith
  have hs1 : (10:ℤ)^prec ≤ pyRoundInt v := by
    refine le_trans ?_ (floor_le_pyRoundInt v)
    rw [Int.le_floor]
    push_cast
    exact hv1
  have hs2 : pyRoundInt v ≤ 10^(prec+1) := by
    refine le_trans (pyRoundInt_le_floor_add_one v) ?_
    have : ⌊v⌋ < 10^(prec+1) := by
      rw [Int.floor_lt]
      push_cast
      exact hv2
    omega
  simp only [sciScaledExp, ← hv]
  split_ifs with hcarry
  · constructor
    · exact le_refl _
    · exact pow_lt_pow_right₀ (by norm_num) (Nat.lt_succ_self prec)
  · exact ⟨hs1, lt_of_le_of_ne hs2 hcarry⟩

theorem natCharsAux_length : ∀ (fuel k n : Nat), 10^k ≤ n → n < 10^(k+1) →
    k < fuel → (natCharsAux fuel n).length = k + 1 := by
  intro fuel
  induction fuel with
  | zero => intro k n _ _ h; exact absurd h (Nat.not_lt_zero k)
  | succ f ih =>
    intro k n h1 h2 hk
    simp only [natCharsAux]
    by_cases hn : n < 10
    · rw [if_pos hn]
      have hk0 : k = 0 := by
        by_contra hne
        have : 10 ≤ 10^k := by
          calc (10:ℕ) = 10^1 := (pow_one 10).symm
          _ ≤ 10^k := Nat.pow_le_pow_right (by norm_num) (by omega)
        omega
      simp [hk0]
    · rw [if_neg hn]
      cases k with
      | zero => rw [pow_one] at h2; omega
      | succ k' =>
        rw [List.length_append]
        have hd1 : 10^k' ≤ n / 10 := by
          rw [Nat.le_div_iff_mul_le (by norm_num)]
          calc 10^k' * 10 = 10^(k'+1) := (pow_succ 10 k').symm
          _ ≤ n := h1
        have hd2 : n / 10 < 10^(k'+1) := by
          rw [Nat.div_lt_iff_lt_mul (by norm_num)]
          calc n < 10^(k'+2) := h2
          _ = 10^(k'+1) * 10 := pow_succ 10 (k'+1)
        rw [ih k' (n/10) hd1 hd2 (by omega)]
        simp

theorem natChars_length_of_bounds (k n : Nat) (h1 : 10^k ≤ n)
    (h2 : n < 10^(k+1)) : (natChars n).length = k + 1 := by
  have hkn : k < n + 1 := by
    have := Nat.lt_pow_self (by norm_num : 1 < 10) k
    omega
  exact natCharsAux_length (n+1) k n h1 h2 hkn

theorem digitChar_ne_comma (d : Nat) : Nat.digitChar d ≠ (',') := by
  by_cases h : d < 16
  · interval_cases d <;> decide
  · have hne : ∀ k : Nat, k < 16 → ¬d = k := fun k hk hdk => by omega
    have hstar : Nat.digitChar d = '*' := by
      unfold Nat.digitChar
      rw [if_neg (hne 0 (by norm_num)), if_neg (hne 1 (by norm_num)),
        if_neg (hne 2 (by norm_num)), if_neg (hne 3 (by norm_num)),
        if_neg (hne 4 (by norm_num)), if_neg (hne 5 (by norm_num)),
        if_neg (hne 6 (by norm_num)), if_neg (hne 7 (by norm_num)),
        if_neg (hne 8 (by norm_num)), if_neg (hne 9 (by norm_num)),
        if_neg (hne 10 (by norm_num)), if_neg (hne 11 (by norm_num)),
        if_neg (hne 12 (by norm_num)), if_neg (hne 13 (by norm_num)),
        if_neg (hne 14 (by norm_num)), if_neg (hne 15 (by norm_num))]
    rw [hstar]
    decide

theorem comma_notin_natCharsAux : ∀ (fuel n : Nat), (',') ∉ natCharsAux fuel n := by
  intro fuel
  induction fuel with
  | zero => intro n; simp [natCharsAux]
  | succ f ih =>
    intro n
    simp only [natCharsAux]
    split_ifs with h
    · intro hmem
      simp at hmem
      exact digitChar_ne_comma n hmem.symm
    · intro hmem
      rcases List.mem_append.1 hmem with h1 | h2
      · exact ih (n/10) h1
      · simp at h2
        exact digitChar_ne_comma (n % 10) h2.symm

theorem countCommas_append (s t : String) :
    countCommas (s ++ t) = countCommas s + countCommas t := by
  rw [countCommas, countCommas, countCommas, String.data_append, List.count_append]

theorem countCommas_mk (l : List Char) : countCommas (String.mk l) = l.count (',') := rfl

theorem count_comma_natChars (n : Nat) : (natChars n).count (',') = 0 :=
  List.count_eq_zero.2 (comma_notin_natCharsAux _ _)

theorem count_comma_replicate (k : Nat) :
    (List.replicate k ('0')).count (',') = 0 :=
  List.count_eq_zero.2 (fun h => by simpa using List.eq_of_mem_replicate h)

theorem countCommas_formatFixed (prec : Nat) (x : ℚ) :
    countCommas (formatFixed prec x) = 0 := by
  simp only [formatFixed, countCommas_append, countCommas_mk, List.count_append,
    count_comma_natChars, count_comma_replicate]
  split_ifs <;> decide

theorem count_comma_take (n k : Nat) : ((natChars n).take k).count (',') = 0 :=
  List.count_eq_zero.2 (fun h => comma_notin_natCharsAux _ _ (List.take_subset _ _ h))

theorem count_comma_drop (n k : Nat) : ((natChars n).drop k).count (',') = 0 :=
  List.count_eq_zero.2 (fun h => comma_notin_natCharsAux _ _ (List.drop_subset _ _ h))

theorem countCommas_expStr (e : ℤ) : countCommas (expStr e) = 0 := by
  simp only [expStr, countCommas_append, countCommas_mk, List.count_append,
    count_comma_natChars, count_comma_replicate]
  split_ifs <;> decide

theorem countCommas_formatSciE (prec : Nat) (x : ℚ) :
    countCommas (formatSciE prec x) = 0 := by
  rw [formatSciE]
  split_ifs with h0 hneg
  · simp only [countCommas_append, countCommas_mk, count_comma_replicate]
    decide
  · simp only [countCommas_append, countCommas_mk, count_comma_take,
      count_comma_drop, countCommas_expStr]
    decide
  · simp only [countCommas_append, countCommas_mk, count_comma_take,
      count_comma_drop, countCommas_expStr]
    decide

theorem countCommas_mkRow (r : CaseResult) : countCommas (mkRow r) = 5 := by
  simp only [mkRow, pyFloatStr, countCommas_append, countCommas_formatFixed,
    countCommas_formatSciE]
  decide

/-- Claim C9 (amended): every data row written to the reference table has
exactly 6 comma-separated columns (5 commas, and no field ever contains a
comma) in the order T, S, DIC, TA, pH, pCO2, with DIC and TA formatted to
6 decimal places, pH to 3 decimal places, and comment lines prefixed with
a hash character; pCO2 however is written with 3 digits after the decimal
point of the scientific-notation mantissa — 4 significant digits, not the
claimed 3. -/
theorem reference_row_format :
    (∀ r : CaseResult, mkRow r =
      pyFloatStr r.T ++ "," ++ pyFloatStr r.S ++ "," ++ formatFixed 6 r.DIC ++ "," ++
        formatFixed 6 r.TA ++ "," ++ formatFixed 3 r.pH ++ "," ++
        formatSciE 3 r.pCO2 ++ "\n") ∧
    (∀ r : CaseResult, countCommas (mkRow r) = 5) ∧
    (∀ s ∈ headerLines, s.data.head? = some ('#')) ∧
    (∀ x : ℚ, 0 < x →
      1000 ≤ (sciScaledExp 3 x).1 ∧ (sciScaledExp 3 x).1 < 10000 ∧
      (natChars (sciScaledExp 3 x).1.natAbs).length = 4) := by
  refine ⟨fun r => rfl, countCommas_mkRow, by decide, ?_⟩
  intro x hx
  obtain ⟨h1, h2⟩ := sciScaledExp_bounds 3 x hx
  norm_num at h1 h2
  refine ⟨h1, h2, ?_⟩
  have hb : 1000 ≤ (sciScaledExp 3 x).1.natAbs ∧
      (sciScaledExp 3 x).1.natAbs < 10000 := by omega
  have := natChars_length_of_bounds 3 (sciScaledExp 3 x).1.natAbs
    (by norm_num; exact hb.1) (by norm_num; exact hb.2)
  simpa using this

/-- Witness for the amended C9: row comma count at a concrete case result
and the four-significant-digit mantissa at a concrete positive pCO2. -/
theorem reference_row_format_case :
    countCommas (mkRow ⟨25, 35, 21 / 10000, 23 / 10000, 81 / 10,
      3456 / 10000000⟩) = 5 ∧
    (natChars (sciScaledExp 3 (1 / 2 : ℚ)).1.natAbs).length = 4 :=
  ⟨reference_row_format.2.1 _,
    (reference_row_format.2.2.2 (1 / 2) (by norm_num)).2.2⟩

theorem sciScaledExp_3456_prec3 :
    sciScaledExp 3 (3456 / 10000000 : ℚ) = (3456, -4) := by
  have hexp : sciExp (3456 / 10000000 : ℚ) = -4 :=
    sciExp_eq_of_bounds _ (-4) (by norm_num) (by norm_num) (by norm_num)
  simp only [sciScaledExp, hexp]
  rw [show (3456 / 10000000 : ℚ) / (10:ℚ)^(-4 : ℤ) * (10:ℚ)^(3:ℕ) =
    ((3456 : ℤ) : ℚ) by norm_num]
  rw [pyRoundInt_intCast]
  norm_num

theorem formatSciE_3456_prec3 :
    formatSciE 3 (3456 / 10000000 : ℚ) = "3.456e-04" := by
  rw [formatSciE, if_neg (by norm_num),
    abs_of_pos (by norm_num : (0:ℚ) < 3456 / 10000000),
    sciScaledExp_3456_prec3, if_neg (by norm_num)]
  decide

theorem formatSciE_3456_prec2 :
    formatSciE 2 (3456 / 10000000 : ℚ) = "3.46e-04" := by
  have hexp : sciExp (3456 / 10000000 : ℚ) = -4 :=
    sciExp_eq_of_bounds _ (-4) (by norm_num) (by norm_num) (by norm_num)
  have hs : sciScaledExp 2 (3456 / 10000000 : ℚ) = (346, -4) := by
    simp only [sciScaledExp, hexp]
    rw [show (3456 / 10000000 : ℚ) / (10:ℚ)^(-4 : ℤ) * (10:ℚ)^(2:ℕ) =
      3456 / 10 by norm_num]
    have hround : pyRoundInt (3456 / 10 : ℚ) = 346 := by
      have hfl : ⌊(3456 / 10 : ℚ)⌋ = 345 := by
        rw [Int.floor_eq_iff]
        norm_num
      simp only [pyRoundInt, hfl]
      norm_num
    rw [hround]
    norm_num
  rw [formatSciE, if_neg (by norm_num),
    abs_of_pos (by norm_num : (0:ℚ) < 3456 / 10000000),
    hs, if_neg (by norm_num)]
  decide

theorem formatFixed_dic : formatFixed 6 (21 / 10000 : ℚ) = "0.002100" := by
  rw [formatFixed]
  simp only [show pyRoundInt ((21 / 10000 : ℚ) * 10 ^ 6) = 2100 from by
      rw [show (21 / 10000 : ℚ) * 10 ^ 6 = ((2100 : ℤ) : ℚ) by norm_num,
        pyRoundInt_intCast],
    if_neg (by norm_num : ¬(21 / 10000 : ℚ) < 0)]
  decide

theorem formatFixed_ta : formatFixed 6 (23 / 10000 : ℚ) = "0.002300" := by
  rw [formatFixed]
  simp only [show pyRoundInt ((23 / 10000 : ℚ) * 10 ^ 6) = 2300 from by
      rw [show (23 / 10000 : ℚ) * 10 ^ 6 = ((2300 : ℤ) : ℚ) by norm_num,
        pyRoundInt_intCast],
    if_neg (by norm_num : ¬(23 / 10000 : ℚ) < 0)]
  decide

theorem formatFixed_ph : formatFixed 3 (81 / 10 : ℚ) = "8.100" := by
  rw [formatFixed]
  simp only [show pyRoundInt ((81 / 10 : ℚ) * 10 ^ 3) = 8100 from by
      rw [show (81 / 10 : ℚ) * 10 ^ 3 = ((8100 : ℤ) : ℚ) by norm_num,
        pyRoundInt_intCast],
    if_neg (by norm_num : ¬(81 / 10 : ℚ) < 0)]
  decide

theorem pyFloatStr_25 : pyFloatStr (25 : ℚ) = "25.0" := by
  rw [pyFloatStr, formatFixed]
  simp only [show pyRoundInt ((25 : ℚ) * 10 ^ 1) = 250 from by
      rw [show (25 : ℚ) * 10 ^ 1 = ((250 : ℤ) : ℚ) by norm_num,
        pyRoundInt_intCast],
    if_neg (by norm_num : ¬(25 : ℚ) < 0)]
  decide

theorem pyFloatStr_35 : pyFloatStr (35 : ℚ) = "35.0" := by
  rw [pyFloatStr, formatFixed]
  simp only [show pyRoundInt ((35 : ℚ) * 10 ^ 1) = 350 from by
      rw [show (35 : ℚ) * 10 ^ 1 = ((350 : ℤ) : ℚ) by norm_num,
        pyRoundInt_intCast],
    if_neg (by norm_num : ¬(35 : ℚ) < 0)]
  decide

/-- Counterexample to claim C9 as stated: the code formats pCO2 with
Python's `.3e`, which prints 3 digits after the decimal point of the
mantissa — 4 significant digits.  For the solver output pCO2 = 3.456e-4
atm the written field is "3.456e-04", while a 3-significant-digit
scientific rendering of the same number is "3.46e-04"; the full concrete
row shows the field in place. -/
theorem reference_pco2_sigdigits_counterexample :
    formatSciE 3 (3456 / 10000000 : ℚ) = "3.456e-04" ∧
    formatSciE 2 (3456 / 10000000 : ℚ) = "3.46e-04" ∧
    ("3.456e-04" : String) ≠ "3.46e-04" ∧
    mkRow ⟨25, 35, 21 / 10000, 23 / 10000, 81 / 10, 3456 / 10000000⟩ =
      "25.0,35.0,0.002100,0.002300,8.100,3.456e-04\n" := by
  refine ⟨formatSciE_3456_prec3, formatSciE_3456_prec2, by decide, ?_⟩
  rw [mkRow]
  simp only [pyFloatStr_25, pyFloatStr_35, formatFixed_dic, formatFixed_ta,
    formatFixed_ph, formatSciE_3456_prec3]
  decide
